import Mathlib

/-!
Verification of the `dyfidep` dependency-tree library (`src/dyfidep/deptrees.py`)
against its natural-language specification.

The Python code is shallowly embedded as executable Lean definitions.  The
filesystem, the glob collaborator, path canonicalization and the persisted JSON
cache document are external collaborators of the code under study (the spec
declares them out of scope and assumed correct); they are modelled as the
abstract state record `Dyfidep.FileSystem`.  File modification times are
naturals (`st_mtime` values enter the code only through order comparisons).
Python calls that raise `FileNotFoundError` (`Path.stat` on a missing path) or
`IndexError` are modelled with `Except Unit`, and exceptions raised by the
library itself (`TypeError`, `DependencyError`, `ParsingError`) with `Except`
over the corresponding payload.
-/

namespace Dyfidep

/-- External world state: `mtime p` is `some t` when path `p` exists with
modification time `t` and `none` when it does not exist; `globMatch pat rec`
is the list returned by `glob.glob(pat, recursive=rec)`; `resolve` is
`str(Path(p).resolve())`; `cacheJson f` is the parsed JSON dictionary stored
in file `f` (`none` when the file does not exist), as a key/value list. -/
structure FileSystem where
  mtime : String → Option Nat
  globMatch : String → Bool → List String
  resolve : String → String
  cacheJson : String → Option (List (String × List String))

/-- `Path(p).exists()`. -/
def pathExists (fs : FileSystem) (p : String) : Bool :=
  (fs.mtime p).isSome

/-- The loop of `_compare_mtimes` once the output's mtime is known: return
`True` as soon as one input is strictly newer; statting a missing input raises
(`.error ()`). -/
def compareMtimesLoop (fs : FileSystem) (output_mtime : Nat) :
    List String → Except Unit Bool
  | [] => .ok false
  | input_file :: rest =>
    match fs.mtime input_file with
    | none => .error ()
    | some input_mtime =>
      if input_mtime > output_mtime then .ok true
      else compareMtimesLoop fs output_mtime rest

/-- `_compare_mtimes(input_files, output_file)` (deptrees.py lines 86-93). -/
def compare_mtimes (fs : FileSystem) (input_files : List String)
    (output_file : String) : Except Unit Bool :=
  match fs.mtime output_file with
  | none => .error ()
  | some output_mtime => compareMtimesLoop fs output_mtime input_files

/-- The closed set of `UpdateCheckMethod` subclasses, as a sum type.
`updateByMtimeAndExistance` carries its (non-`None`) `cache_file`. -/
inductive UpdateCheckMethod where
  | updateByMtime : UpdateCheckMethod
  | updateByMtimeAndExistance (cache_file : String) : UpdateCheckMethod
deriving DecidableEq

/-- `UpdateByMtimeAndExistance.__init__(cache_file=None)` (lines 44-48):
a missing or `None` `cache_file` raises `TypeError` immediately. -/
def mkUpdateByMtimeAndExistance (cache_file : Option String) :
    Except String UpdateCheckMethod :=
  match cache_file with
  | none => .error "cache_file cannot be None for this class"
  | some cf => .ok (.updateByMtimeAndExistance cf)

/-- `UpdateByMtimeAndExistance._get_json` (lines 71-76): a missing cache file
reads as the empty dictionary. -/
def get_json (fs : FileSystem) (cache_file : String) :
    List (String × List String) :=
  (fs.cacheJson cache_file).getD []

/-- `UpdateByMtimeAndExistance._get_key` (lines 78-83). -/
def get_key (fs : FileSystem) (output_file : String)
    (output_alt_path_key : Option String) : String :=
  match output_alt_path_key with
  | none => fs.resolve output_file
  | some k => fs.resolve k

/-- `cached_list.get(key, tuple())`: dictionary lookup with empty default. -/
def cacheLookup (m : List (String × List String)) (key : String) : List String :=
  match m.find? (fun kv => kv.fst == key) with
  | some kv => kv.snd
  | none => []

/-- Equality of the finite sets `set(a)` and `set(b)` of strings. -/
def sameSet (a b : List String) : Bool :=
  a.all (fun x => b.contains x) && b.all (fun x => a.contains x)

/-- `is_update_required` of the two policies (lines 37-38 and 50-61).  The
timestamp-and-input-set variant first compares the recorded input set for the
cache key against the set of canonicalized current inputs and reports `True`
on any difference; only if the sets agree does it fall back to the timestamp
comparison. -/
def is_update_required (fs : FileSystem) (how : UpdateCheckMethod)
    (input_files : List String) (output_file : String)
    (output_alt_path_key : Option String) : Except Unit Bool :=
  match how with
  | .updateByMtime => compare_mtimes fs input_files output_file
  | .updateByMtimeAndExistance cache_file =>
    let cached_list := get_json fs cache_file
    let key := get_key fs output_file output_alt_path_key
    let previous_files := cacheLookup cached_list key
    let current_files := input_files.map fs.resolve
    if !(sameSet previous_files current_files) then .ok true
    else compare_mtimes fs input_files output_file

/-- Insertion of a string into a sorted list (for Python's `sorted`). -/
def insertSorted (x : String) : List String → List String
  | [] => [x]
  | y :: ys => if x < y then x :: y :: ys else y :: insertSorted x ys

/-- Python's `sorted` on a list of strings (ascending). -/
def sortStrings (l : List String) : List String :=
  l.foldr insertSorted []

/-- `cached_list[key] = value`: dictionary assignment on the key/value list. -/
def cacheSet (m : List (String × List String)) (key : String)
    (v : List String) : List (String × List String) :=
  if m.any (fun kv => kv.fst == key) then
    m.map (fun kv => if kv.fst == key then (key, v) else kv)
  else m ++ [(key, v)]

/-- `update_cache` of the two policies (lines 40-41 and 63-69): the timestamp
policy records nothing; the set policy rewrites the key's entry with the
sorted canonicalized current inputs and rewrites the whole cache document.
The resulting world state is returned. -/
def update_cache (fs : FileSystem) (how : UpdateCheckMethod)
    (input_files : List String) (output_file : String)
    (output_alt_path_key : Option String) : FileSystem :=
  match how with
  | .updateByMtime => fs
  | .updateByMtimeAndExistance cache_file =>
    let cached_list := get_json fs cache_file
    let key := get_key fs output_file output_alt_path_key
    let entry := sortStrings (input_files.map fs.resolve)
    let written := cacheSet cached_list key entry
    { fs with cacheJson := fun f => if f == cache_file then some written else fs.cacheJson f }

/-- `Dependency.is_out_of_date` (lines 136-143): a missing output is always
out of date; otherwise the configured policy decides. -/
def is_out_of_date (fs : FileSystem) (input_files : List String)
    (output_file : String) (how : UpdateCheckMethod)
    (output_alt_path_key : Option String) : Except Unit Bool :=
  if !(pathExists fs output_file) then .ok true
  else is_update_required fs how input_files output_file output_alt_path_key

/-- A `TreeNode(file, depends_on)` as built by the relation variants. -/
structure TreeNode where
  file : String
  depends_on : List String
deriving DecidableEq

/-- `Dependency.get_input_output_files` (lines 154-161) applied to the pairs
produced by `iter_files`: the sorted sets of input and output paths. -/
def get_input_output_files (pairs : List (String × String)) :
    List String × List String :=
  (sortStrings (pairs.map Prod.fst).dedup, sortStrings (pairs.map Prod.snd).dedup)

/-- `ManyToOnePatternDependency` (lines 238-293): state set by `__init__`. -/
structure ManyToOnePatternDependency where
  from_pattern : String
  to_file : String
  glob_recursive : Bool
  how : UpdateCheckMethod

namespace ManyToOnePatternDependency

/-- `ManyToOnePatternDependency.iter_files` (lines 289-293). -/
def iter_files (fs : FileSystem) (d : ManyToOnePatternDependency) :
    List (String × String) :=
  (fs.globMatch d.from_pattern d.glob_recursive).map
    (fun input_file => (input_file, d.to_file))

/-- `ManyToOnePatternDependency.get_dependency_pairs` (lines 282-283). -/
def get_dependency_pairs (fs : FileSystem) (d : ManyToOnePatternDependency) :
    List (String × String) :=
  iter_files fs d

/-- `ManyToOnePatternDependency.get_files_to_update` (lines 275-280). -/
def get_files_to_update (fs : FileSystem) (d : ManyToOnePatternDependency) :
    Except Unit (List TreeNode) :=
  let input_files := fs.globMatch d.from_pattern d.glob_recursive
  match is_out_of_date fs input_files d.to_file d.how none with
  | .error e => .error e
  | .ok true => .ok [TreeNode.mk d.to_file input_files]
  | .ok false => .ok []

/-- `ManyToOnePatternDependency.set_files_updated` (lines 285-287):
`output_files[0]` raises `IndexError` (modelled `.error ()`) when the output
list is empty; otherwise `mark_updated` runs and the new world is returned. -/
def set_files_updated (fs : FileSystem) (d : ManyToOnePatternDependency) :
    Except Unit FileSystem :=
  match get_input_output_files (iter_files fs d) with
  | (_, []) => .error ()
  | (input_files, o :: _) => .ok (update_cache fs d.how input_files o none)

end ManyToOnePatternDependency

/-- `ManyToVariableOnePatternDependency` (lines 296-372): state set by
`__init__` after output-name resolution. -/
structure ManyToVariableOnePatternDependency where
  from_pattern : String
  to_file : String
  to_pattern : String
  glob_recursive : Bool
  how : UpdateCheckMethod

namespace ManyToVariableOnePatternDependency

/-- `ManyToVariableOnePatternDependency.__init__` (lines 333-351).  Only when
the literal `to_file` path does not exist is its glob consulted: zero matches
keep the literal pattern string, one match adopts it, several raise
`DependencyError`. -/
def init (fs : FileSystem) (from_pattern : String) (to_file : String)
    (glob_recursive : Bool) (how : UpdateCheckMethod) :
    Except String ManyToVariableOnePatternDependency :=
  let to_pattern := to_file
  if !(pathExists fs to_file) then
    match fs.globMatch to_pattern glob_recursive with
    | [] => .ok ⟨from_pattern, to_pattern, to_pattern, glob_recursive, how⟩
    | [f] => .ok ⟨from_pattern, f, to_pattern, glob_recursive, how⟩
    | _ => .error ("Multiple files matched the pattern \"" ++ to_file ++ "\"")
  else
    .ok ⟨from_pattern, to_file, to_pattern, glob_recursive, how⟩

/-- `ManyToVariableOnePatternDependency.iter_files` (lines 368-372). -/
def iter_files (fs : FileSystem) (d : ManyToVariableOnePatternDependency) :
    List (String × String) :=
  (fs.globMatch d.from_pattern d.glob_recursive).map
    (fun input_file => (input_file, d.to_file))

/-- `ManyToVariableOnePatternDependency.get_dependency_pairs` (lines 360-362). -/
def get_dependency_pairs (fs : FileSystem)
    (d : ManyToVariableOnePatternDependency) : List (String × String) :=
  (fs.globMatch d.from_pattern d.glob_recursive).map
    (fun i => (i, d.to_file))

/-- `ManyToVariableOnePatternDependency.get_files_to_update` (lines 353-358):
the unresolved name pattern is passed as the alternative cache key. -/
def get_files_to_update (fs : FileSystem)
    (d : ManyToVariableOnePatternDependency) : Except Unit (List TreeNode) :=
  let input_files := fs.globMatch d.from_pattern d.glob_recursive
  match is_out_of_date fs input_files d.to_file d.how (some d.to_pattern) with
  | .error e => .error e
  | .ok true => .ok [TreeNode.mk d.to_file input_files]
  | .ok false => .ok []

/-- `ManyToVariableOnePatternDependency.set_files_updated` (lines 364-366). -/
def set_files_updated (fs : FileSystem)
    (d : ManyToVariableOnePatternDependency) : Except Unit FileSystem :=
  match get_input_output_files (iter_files fs d) with
  | (_, []) => .error ()
  | (input_files, o :: _) =>
    .ok (update_cache fs d.how input_files o (some d.to_pattern))

end ManyToVariableOnePatternDependency

/-! ### Helper lemmas about the staleness engine -/

/-- When every input exists, the `_compare_mtimes` loop returns exactly
"some input is strictly newer than the output". -/
theorem compareMtimesLoop_all_exist (fs : FileSystem) (output_mtime : Nat) :
    ∀ l : List String, (∀ f ∈ l, pathExists fs f = true) →
      compareMtimesLoop fs output_mtime l =
        .ok (l.any (fun f => decide (output_mtime < (fs.mtime f).getD 0))) := by
  intro l
  induction l with
  | nil => intro _; rfl
  | cons f rest ih =>
    intro h
    have hf : pathExists fs f = true := h f (List.mem_cons_self f rest)
    obtain ⟨m, hm⟩ := Option.isSome_iff_exists.mp hf
    have hrest : ∀ g ∈ rest, pathExists fs g = true := by
      intro g hg; exact h g (List.mem_cons_of_mem f hg)
    by_cases hlt : output_mtime < m
    · simp [compareMtimesLoop, hm, hlt]
    · simp [compareMtimesLoop, hm, hlt, ih hrest]

/-! ### Claim C7 -/

/-- C7: constructing the timestamp-plus-input-set policy
(`UpdateByMtimeAndExistance`) with `cache_file` absent or `None` raises
immediately at construction; with a supplied cache file it succeeds, so the
error can never instead surface at a later staleness check. -/
theorem mkUpdateByMtimeAndExistance_requires_cache_file :
    mkUpdateByMtimeAndExistance none =
      .error "cache_file cannot be None for this class"
    ∧ ∀ cf, mkUpdateByMtimeAndExistance (some cf) =
        .ok (.updateByMtimeAndExistance cf) :=
  ⟨rfl, fun _ => rfl⟩

/-! ### Claim C2 -/

/-- C2: for `UpdateByMtimeAndExistance.is_update_required`, any difference
between the recorded input set under the cache key and the set of
canonicalized current inputs forces `True` regardless of timestamps; when the
two sets are equal the result is exactly the timestamp comparison. -/
theorem updateByMtimeAndExistance_set_delta (fs : FileSystem)
    (cache_file : String) (input_files : List String) (output_file : String)
    (alt : Option String) :
    (sameSet (cacheLookup (get_json fs cache_file) (get_key fs output_file alt))
        (input_files.map fs.resolve) = false →
      is_update_required fs (.updateByMtimeAndExistance cache_file) input_files
        output_file alt = .ok true)
    ∧ (sameSet (cacheLookup (get_json fs cache_file) (get_key fs output_file alt))
        (input_files.map fs.resolve) = true →
      is_update_required fs (.updateByMtimeAndExistance cache_file) input_files
        output_file alt = compare_mtimes fs input_files output_file) := by
  constructor <;> intro h <;> simp [is_update_required, h]

/-- World state for the C2 witness: the cache records `a.txt` as the sole
input of `out.bin`, while both `a.txt` and the newly appeared `b.txt` are
older than `out.bin`. -/
def fsC2 : FileSystem where
  mtime := fun p =>
    if p == "out.bin" then some 100
    else if p == "a.txt" then some 10
    else if p == "b.txt" then some 20
    else none
  globMatch := fun _ _ => []
  resolve := fun p => p
  cacheJson := fun f =>
    if f == "cache.json" then some [("out.bin", ["a.txt"])] else none

/-- Witness for C2, instantiating the spec's example: cached set
`a.txt` versus current inputs `a.txt, b.txt`, both older than the
output — the update is forced by the set delta alone. -/
theorem updateByMtimeAndExistance_set_delta_witness :
    sameSet (cacheLookup (get_json fsC2 "cache.json") (get_key fsC2 "out.bin" none))
        (["a.txt", "b.txt"].map fsC2.resolve) = false
    ∧ compare_mtimes fsC2 ["a.txt", "b.txt"] "out.bin" = .ok false
    ∧ is_update_required fsC2 (.updateByMtimeAndExistance "cache.json")
        ["a.txt", "b.txt"] "out.bin" none = .ok true :=
  ⟨rfl, rfl,
    (updateByMtimeAndExistance_set_delta fsC2 "cache.json" ["a.txt", "b.txt"]
      "out.bin" none).1 rfl⟩

/-! ### Claim C3 -/

/-- C3: the timestamp-only policy as invoked through
`Dependency.is_out_of_date`: the result is `True` when the output does not
exist, and otherwise (whenever every input exists, so that each modification
time is defined) it is `True` exactly when some input's modification time is
strictly greater than the output's. -/
theorem is_out_of_date_timestamp_policy (fs : FileSystem)
    (input_files : List String) (output_file : String) :
    (pathExists fs output_file = false →
      is_out_of_date fs input_files output_file .updateByMtime none = .ok true)
    ∧ (pathExists fs output_file = true →
      (∀ f ∈ input_files, pathExists fs f = true) →
      is_out_of_date fs input_files output_file .updateByMtime none =
        .ok (input_files.any (fun f =>
          decide ((fs.mtime output_file).getD 0 < (fs.mtime f).getD 0)))) := by
  constructor
  · intro h
    simp [is_out_of_date, h]
  · intro h hin
    obtain ⟨om, hom⟩ := Option.isSome_iff_exists.mp h
    simp [is_out_of_date, h, is_update_required, compare_mtimes, hom,
      compareMtimesLoop_all_exist fs om input_files hin]

/-- World state for the C3 witness: the output exists with mtime 10 and the
single input exists with the strictly newer mtime 20. -/
def fsC3 : FileSystem where
  mtime := fun p =>
    if p == "out.o" then some 10
    else if p == "in.c" then some 20
    else none
  globMatch := fun _ _ => []
  resolve := fun p => p
  cacheJson := fun _ => none

/-- Witness for C3: with the output present and one strictly newer input,
`is_out_of_date` under the timestamp-only policy reports `True`. -/
theorem is_out_of_date_timestamp_policy_witness :
    pathExists fsC3 "out.o" = true
    ∧ is_out_of_date fsC3 ["in.c"] "out.o" .updateByMtime none = .ok true :=
  ⟨rfl,
    (is_out_of_date_timestamp_policy fsC3 ["in.c"] "out.o").2 rfl
      (by decide)⟩

/-! ### Claim C1 -/

/-- World state for the C1 counterexample: every glob matches nothing and no
file exists (in particular the relation's output file does not exist). -/
def fsC1 : FileSystem where
  mtime := fun _ => none
  globMatch := fun _ _ => []
  resolve := fun p => p
  cacheJson := fun _ => none

/-- A `ManyToOne` relation whose input glob matches zero files in `fsC1`. -/
def depC1 : ManyToOnePatternDependency :=
  ⟨"src/*.c", "prog", false, .updateByMtime⟩

/-- Counterexample to C1: a `ManyToOne` relation whose input glob matches
zero files and whose output file does not exist has a nonempty
`get_files_to_update` — the output is reported stale, because
`Dependency.is_out_of_date` returns `True` for any missing output before
consulting the inputs.  So the result is not independent of the output's
existence. -/
theorem manyToOne_emptyGlob_missing_output_counterexample :
    fsC1.globMatch depC1.from_pattern depC1.glob_recursive = []
    ∧ pathExists fsC1 depC1.to_file = false
    ∧ ManyToOnePatternDependency.get_files_to_update fsC1 depC1 =
        .ok [TreeNode.mk "prog" []]
    ∧ ([TreeNode.mk "prog" []] : List TreeNode) ≠ [] :=
  ⟨rfl, rfl, rfl, by decide⟩

/-- C1 as amended: with zero matched inputs, `iter_files` and
`get_dependency_pairs` are always empty; `get_files_to_update` is empty
whenever the output file exists and the policy is timestamp-only (regardless
of the output's age), or the set policy holds no recorded inputs under the
output's key; but when the output file does not exist,
`get_files_to_update` reports the single output node as stale. -/
theorem manyToOne_emptyGlob_behavior (fs : FileSystem)
    (d : ManyToOnePatternDependency)
    (h : fs.globMatch d.from_pattern d.glob_recursive = []) :
    ManyToOnePatternDependency.iter_files fs d = []
    ∧ ManyToOnePatternDependency.get_dependency_pairs fs d = []
    ∧ (pathExists fs d.to_file = false →
        ManyToOnePatternDependency.get_files_to_update fs d =
          .ok [TreeNode.mk d.to_file []])
    ∧ (pathExists fs d.to_file = true → d.how = .updateByMtime →
        ManyToOnePatternDependency.get_files_to_update fs d = .ok [])
    ∧ (∀ cache_file, pathExists fs d.to_file = true →
        d.how = .updateByMtimeAndExistance cache_file →
        cacheLookup (get_json fs cache_file) (get_key fs d.to_file none) = [] →
        ManyToOnePatternDependency.get_files_to_update fs d = .ok []) := by
  refine ⟨?_, ?_, ?_, ?_, ?_⟩
  · simp [ManyToOnePatternDependency.iter_files, h]
  · simp [ManyToOnePatternDependency.get_dependency_pairs,
      ManyToOnePatternDependency.iter_files, h]
  · intro hmiss
    simp [ManyToOnePatternDependency.get_files_to_update, h, is_out_of_date,
      hmiss]
  · intro hex hhow
    obtain ⟨om, hom⟩ := Option.isSome_iff_exists.mp hex
    simp [ManyToOnePatternDependency.get_files_to_update, h, is_out_of_date,
      hex, hhow, is_update_required, compare_mtimes, hom, compareMtimesLoop]
  · intro cache_file hex hhow hcache
    obtain ⟨om, hom⟩ := Option.isSome_iff_exists.mp hex
    simp [ManyToOnePatternDependency.get_files_to_update, h, is_out_of_date,
      hex, hhow, is_update_required, hcache, sameSet, compare_mtimes, hom,
      compareMtimesLoop]

/-- Witness for the amended C1, on the concrete empty-glob world `fsC1`. -/
theorem manyToOne_emptyGlob_behavior_witness :
    fsC1.globMatch depC1.from_pattern depC1.glob_recursive = []
    ∧ ManyToOnePatternDependency.iter_files fsC1 depC1 = [] :=
  ⟨rfl, (manyToOne_emptyGlob_behavior fsC1 depC1 rfl).1⟩

/-! ### Claim C6 -/

/-- World state for the C6 counterexample: a file literally named `out*`
exists, while the glob `out*` matches the two files `out1` and `out2`. -/
def fsC6 : FileSystem where
  mtime := fun p =>
    if p == "out*" then some 5
    else if p == "out1" then some 1
    else if p == "out2" then some 2
    else none
  globMatch := fun pat _ => if pat == "out*" then ["out1", "out2"] else []
  resolve := fun p => p
  cacheJson := fun _ => none

/-- Counterexample to C6: when the literal output path itself exists,
`ManyToVariableOnePatternDependency.__init__` never consults the glob, so a
name pattern matching more than one file does not raise — construction
succeeds.  The claim's unconditional "more than one match fails immediately"
is therefore false. -/
theorem manyToVariableOne_init_counterexample :
    fsC6.globMatch "out*" false = ["out1", "out2"]
    ∧ pathExists fsC6 "out*" = true
    ∧ ManyToVariableOnePatternDependency.init fsC6 "src/*" "out*" false
        .updateByMtime =
      .ok ⟨"src/*", "out*", "out*", false, .updateByMtime⟩ :=
  ⟨rfl, rfl, rfl⟩

/-- C6 as amended: output-name resolution happens at construction time, but
only when the literal output path does not already exist.  In that case zero
glob matches keep the literal pattern string as the output name, exactly one
match adopts the resolved path, and more than one match raises a
`DependencyError` immediately, before any staleness logic executes.  When the
literal path exists it is used directly, glob matches notwithstanding. -/
theorem manyToVariableOne_init_resolution (fs : FileSystem)
    (from_pattern to_file : String) (glob_recursive : Bool)
    (how : UpdateCheckMethod) :
    (pathExists fs to_file = true →
      ManyToVariableOnePatternDependency.init fs from_pattern to_file
          glob_recursive how =
        .ok ⟨from_pattern, to_file, to_file, glob_recursive, how⟩)
    ∧ (pathExists fs to_file = false →
        fs.globMatch to_file glob_recursive = [] →
        ManyToVariableOnePatternDependency.init fs from_pattern to_file
            glob_recursive how =
          .ok ⟨from_pattern, to_file, to_file, glob_recursive, how⟩)
    ∧ (∀ f, pathExists fs to_file = false →
        fs.globMatch to_file glob_recursive = [f] →
        ManyToVariableOnePatternDependency.init fs from_pattern to_file
            glob_recursive how =
          .ok ⟨from_pattern, f, to_file, glob_recursive, how⟩)
    ∧ (∀ f1 f2 rest, pathExists fs to_file = false →
        fs.globMatch to_file glob_recursive = f1 :: f2 :: rest →
        ManyToVariableOnePatternDependency.init fs from_pattern to_file
            glob_recursive how =
          .error ("Multiple files matched the pattern \"" ++ to_file ++ "\"")) := by
  refine ⟨?_, ?_, ?_, ?_⟩
  · intro hex
    simp [ManyToVariableOnePatternDependency.init, hex]
  · intro hmiss hglob
    simp [ManyToVariableOnePatternDependency.init, hmiss, hglob]
  · intro f hmiss hglob
    simp [ManyToVariableOnePatternDependency.init, hmiss, hglob]
  · intro f1 f2 rest hmiss hglob
    simp [ManyToVariableOnePatternDependency.init, hmiss, hglob]

/-- World state for the C6 witness: no file named `out*` exists and the glob
`out*` matches two files — construction must fail. -/
def fsC6b : FileSystem where
  mtime := fun p =>
    if p == "out1" then some 1
    else if p == "out2" then some 2
    else none
  globMatch := fun pat _ => if pat == "out*" then ["out1", "out2"] else []
  resolve := fun p => p
  cacheJson := fun _ => none

/-- Witness for the amended C6: an ambiguous (two-match) name pattern whose
literal path does not exist makes construction raise immediately. -/
theorem manyToVariableOne_init_resolution_witness :
    pathExists fsC6b "out*" = false
    ∧ ManyToVariableOnePatternDependency.init fsC6b "src/*" "out*" false
        .updateByMtime =
      .error "Multiple files matched the pattern \"out*\"" :=
  ⟨rfl,
    (manyToVariableOne_init_resolution fsC6b "src/*" "out*" false
      .updateByMtime).2.2.2 "out1" "out2" [] rfl rfl⟩

/-! ### Claim C10 -/

/-- C10: for a `ManyToOne` or `ManyToOneDeferredName` relation whose input
glob matches zero files, `iter_files` yields no pairs, so
`get_input_output_files` returns two empty lists and `set_files_updated`
raises an `IndexError` at `output_files[0]` — it never completes, and no
cache entry is recorded for the output. -/
theorem set_files_updated_emptyGlob_raises :
    (∀ (fs : FileSystem) (d : ManyToOnePatternDependency),
      fs.globMatch d.from_pattern d.glob_recursive = [] →
      get_input_output_files (ManyToOnePatternDependency.iter_files fs d) =
        ([], [])
      ∧ ManyToOnePatternDependency.set_files_updated fs d = .error ())
    ∧ (∀ (fs : FileSystem) (d : ManyToVariableOnePatternDependency),
      fs.globMatch d.from_pattern d.glob_recursive = [] →
      get_input_output_files
          (ManyToVariableOnePatternDependency.iter_files fs d) = ([], [])
      ∧ ManyToVariableOnePatternDependency.set_files_updated fs d =
          .error ()) := by
  constructor
  · intro fs d h
    have hiter : ManyToOnePatternDependency.iter_files fs d = [] := by
      simp [ManyToOnePatternDependency.iter_files, h]
    constructor
    · simp [hiter, get_input_output_files, sortStrings]
    · simp [ManyToOnePatternDependency.set_files_updated, hiter,
        get_input_output_files, sortStrings]
  · intro fs d h
    have hiter : ManyToVariableOnePatternDependency.iter_files fs d = [] := by
      simp [ManyToVariableOnePatternDependency.iter_files, h]
    constructor
    · simp [hiter, get_input_output_files, sortStrings]
    · simp [ManyToVariableOnePatternDependency.set_files_updated, hiter,
        get_input_output_files, sortStrings]

/-- World state for the C10 witness: every glob matches nothing. -/
def fsC10 : FileSystem where
  mtime := fun _ => none
  globMatch := fun _ _ => []
  resolve := fun p => p
  cacheJson := fun _ => none

/-- A `ManyToOne` relation with the set policy whose glob matches nothing. -/
def depC10 : ManyToOnePatternDependency :=
  ⟨"data/*.dat", "all.bin", false, .updateByMtimeAndExistance "cache.json"⟩

/-- Witness for C10: committing a zero-input `ManyToOne` relation raises. -/
theorem set_files_updated_emptyGlob_raises_witness :
    fsC10.globMatch depC10.from_pattern depC10.glob_recursive = []
    ∧ ManyToOnePatternDependency.set_files_updated fsC10 depC10 = .error () :=
  ⟨rfl, (set_files_updated_emptyGlob_raises.1 fsC10 depC10 rfl).2⟩

/-! ### The pattern mini-language compiler

Embedding of `_PatternTokenizer` / `_PatternParser` (deptrees.py lines
375-530).  The tokenizer walks the pattern left to right; positions are
absolute character indices as in the Python code.  `ParsingError` keeps the
three ingredients the Python exception formats into its message (the source
string, the index at raise time, and the cause). -/

/-- The kinds of `_Token` (the `EOF` variant is represented by the end of the
token list). -/
inductive TokenType where
  | STRING : TokenType
  | GROUP : TokenType
  | SUB : TokenType
  | RE_ONLY : TokenType
deriving DecidableEq

/-- A `_Token`: its type and its regex / substitution / glob contributions
(`glob_value` defaults to `sub_value` in the Python constructor; here it is
always stored explicitly). -/
structure Token where
  type : TokenType
  re_value : String
  sub_value : String
  glob_value : String
deriving DecidableEq

/-- A `ParsingError(s, index, msg)`: the original pattern string, the
tokenizer index at raise time, and the cause message. -/
structure ParsingError where
  s : String
  index : Nat
  msg : String
deriving DecidableEq

/-- `_PatternTokenizer._regex_only_chars`. -/
def regexOnlyChars : List Char := ['$', '^']

/-- `_PatternTokenizer.special_chars` (the regex-only chars plus the opening
brace and the wildcard). -/
def specialChars : List Char := ['$', '^', '\x7b', '%']

/-- The characters Python's `re.escape` prefixes with a backslash. -/
def reSpecialChars : List Char :=
  ['(', ')', '[', ']', '\x7b', '\x7d', '?', '*', '+', '-', '|', '^', '$',
   '\\', '.', '&', '~', '#', ' ', '\t', '\n', '\r', '\x0b', '\x0c']

/-- One character of `re.escape` output. -/
def reEscapeChar (c : Char) : List Char :=
  if c ∈ reSpecialChars then ['\\', c] else [c]

/-- Python's `re.escape` on a character list. -/
def reEscape (s : List Char) : List Char :=
  (s.map reEscapeChar).flatten

/-- Python slicing `l[a:b]` (for `0 ≤ a ≤ b ≤ len`). -/
def pySlice (l : List Char) (a b : Nat) : List Char :=
  (l.take b).drop a

/-- The scanning loop of `_PatternTokenizer._get_sub_token` (lines 469-483).
`rest` is the text after the already-eaten `\x7b`, `idx` the absolute index of
`rest`'s first character, `start` the index of the opening brace, `nopen` the
count of currently open braces, and `comma` the recorded index of the first
unescaped comma.  On success it returns `(end, comma, rest')`: the index just
past the closing brace, the comma position, and the unconsumed text. -/
def subScan (pattern : String) (start : Nat) :
    List Char → Nat → Nat → Option Nat →
    Except ParsingError (Nat × Option Nat × List Char)
  | rest, idx, 0, comma => .ok (idx, comma, rest)
  | [], idx, _ + 1, _ =>
    .error ⟨pattern, idx,
      "Pattern ends with unterminated \x7b from index " ++ toString start⟩
  | '\x7b' :: rs, idx, m + 1, comma =>
    subScan pattern start rs (idx + 1) (m + 2) comma
  | '\x7d' :: rs, idx, m + 1, comma =>
    subScan pattern start rs (idx + 1) m comma
  | ',' :: rs, idx, m + 1, none =>
    subScan pattern start rs (idx + 1) (m + 1) (some idx)
  | ',' :: _, idx, _ + 1, some _ =>
    .error ⟨pattern, idx + 1,
      "Found a second comma inside a substitution. Escape with a backslash if needed."⟩
  | '\\' :: ',' :: rs2, idx, m + 1, comma =>
    subScan pattern start rs2 (idx + 2) (m + 1) comma
  | _ :: rs, idx, m + 1, comma =>
    subScan pattern start rs (idx + 1) (m + 1) comma

/-- The tokenizer loop driving `_PatternParser.parse`: repeated
`next_token()` until `EOF`, collecting the tokens.  `chars` is the full
pattern as characters (for slicing), `rest` the unconsumed text, `idx` the
absolute index of `rest`'s head, `g` the next wildcard group number.  `fuel`
is a recursion bound, an artifact of the embedding: every emitted token
consumes at least one character, so `chars.length + 1` fuel can never run
out (the exhausted branch is unreachable; it reports an error with the same
shape as the genuine ones). -/
def tokenizeFrom (pattern : String) (chars : List Char) :
    Nat → List Char → Nat → Nat → Except ParsingError (List Token)
  | 0, _, idx, _ => .error ⟨pattern, idx, "recursion limit exceeded"⟩
  | _ + 1, [], _, _ => .ok []
  | fuel + 1, c :: rs, idx, g =>
    if c = '\x7b' then
      match subScan pattern idx rs (idx + 1) 1 none with
      | .error e => .error e
      | .ok (endI, none, _) =>
        .error ⟨pattern, endI, "No comma found inside substitution pattern brackets"⟩
      | .ok (endI, some cm, rest') =>
        match tokenizeFrom pattern chars fuel rest' endI g with
        | .error e => .error e
        | .ok toks =>
          .ok (⟨.SUB, String.mk (pySlice chars (idx + 1) cm),
                String.mk (pySlice chars (cm + 1) (endI - 1)),
                String.mk (pySlice chars (cm + 1) (endI - 1))⟩ :: toks)
    else if c = '%' then
      match tokenizeFrom pattern chars fuel rs (idx + 1) (g + 1) with
      | .error e => .error e
      | .ok toks => .ok (⟨.GROUP, "(.*)", "\\" ++ toString g, "*"⟩ :: toks)
    else if regexOnlyChars.contains c then
      match tokenizeFrom pattern chars fuel rs (idx + 1) g with
      | .error e => .error e
      | .ok toks => .ok (⟨.RE_ONLY, String.mk [c], "", ""⟩ :: toks)
    else
      let text := c :: rs.takeWhile (fun d => !(specialChars.contains d))
      match tokenizeFrom pattern chars fuel
          (rs.dropWhile (fun d => !(specialChars.contains d)))
          (idx + text.length) g with
      | .error e => .error e
      | .ok toks =>
        .ok (⟨.STRING, String.mk (reEscape text), String.mk text,
              String.mk text⟩ :: toks)

/-- Tokenizing a whole pattern: the iterator protocol resets the index to 0
and the group counter to 1. -/
def tokenize (pattern : String) : Except ParsingError (List Token) :=
  tokenizeFrom pattern pattern.toList (pattern.toList.length + 1)
    pattern.toList 0 1

/-- Python's `''.join`. -/
def strJoin : List String → String
  | [] => ""
  | s :: rs => s ++ strJoin rs

/-- `_PatternParser.parse` (lines 516-530): the `(regex, substitution, glob)`
triple obtained by concatenating each token's contributions in order. -/
def parse (pattern : String) : Except ParsingError (String × String × String) :=
  match tokenize pattern with
  | .error e => .error e
  | .ok toks =>
    .ok (strJoin (toks.map Token.re_value), strJoin (toks.map Token.sub_value),
      strJoin (toks.map Token.glob_value))

/-! ### Analysis of the compiled output

Counting capture groups in a regex string, locating backreferences in a
substitution string, and the denotation of escape-only regexes.  These are
the claim-side notions the theorems below relate to the compiler. -/

/-- Number of capture groups of a regex text: unescaped `(` characters.  The
boolean records whether the previous character was an escaping backslash. -/
def countGroupsAux : List Char → Bool → Nat
  | [], _ => 0
  | _ :: rs, true => countGroupsAux rs false
  | c :: rs, false =>
    if c = '\\' then countGroupsAux rs true
    else if c = '(' then countGroupsAux rs false + 1
    else countGroupsAux rs false

/-- Number of capture groups of a regex text. -/
def countGroups (s : List Char) : Nat := countGroupsAux s false

/-- The escaping state after reading a text: `true` exactly when the last
character read was an unescaped backslash. -/
def escState : List Char → Bool → Bool
  | [], e => e
  | c :: rs, e =>
    if e then escState rs false
    else if c = '\\' then escState rs true
    else escState rs false

/-- Number of wildcard (`GROUP`) tokens in a token list. -/
def numGroups (toks : List Token) : Nat :=
  toks.countP (fun t => t.type == TokenType.GROUP)

/-- The backreference `\n` as text. -/
def bref (n : Nat) : List Char := '\\' :: (toString n).toList

/-- `ContainsRefs g n s`: the text `s` contains the backreferences
`\g, \g+1, ..., \g+n-1`, in this left-to-right order with no number skipped
or reordered (it decomposes as `w₀ ++ \g ++ w₁ ++ \g+1 ++ ...`). -/
inductive ContainsRefs : Nat → Nat → List Char → Prop where
  | zero (g : Nat) (s : List Char) : ContainsRefs g 0 s
  | step (g n : Nat) (w rest : List Char) (h : ContainsRefs (g + 1) n rest) :
      ContainsRefs g (n + 1) (w ++ (bref g ++ rest))

/-- Text prepended in front of a reference chain preserves it. -/
theorem ContainsRefs.prepend (a : List Char) {g n : Nat} {s : List Char}
    (h : ContainsRefs g n s) : ContainsRefs g n (a ++ s) := by
  cases h with
  | zero => exact .zero ..
  | step g n w rest h' =>
    have h2 := ContainsRefs.step g n (a ++ w) rest h'
    simpa [List.append_assoc] using h2

/-- The denotation of an escape-only regex (a concatenation of atoms that are
either a non-metacharacter or a backslash-escaped character, as produced by
`re.escape`): such a regex matches exactly the character string returned
here, and `none` marks a text that is not an escape-only regex. -/
def unescape : List Char → Option (List Char)
  | [] => some []
  | c :: rs =>
    if c = '\\' then
      match rs with
      | [] => none
      | d :: rs2 => (unescape rs2).map (fun l => d :: l)
    else if c ∈ ['.', '^', '$', '*', '+', '?', '\x7b', '\x7d', '[', ']', '(',
        ')', '|', '\\'] then none
    else (unescape rs).map (fun l => c :: l)

/-! ### Helper lemmas about the analysis functions -/

/-- String append acts as list append on the character data. -/
theorem string_append_toList (a b : String) :
    (a ++ b).toList = a.toList ++ b.toList := rfl

/-- `strJoin` flattens to the concatenation of the parts' characters. -/
theorem strJoin_toList (l : List String) :
    (strJoin l).toList = (l.map String.toList).flatten := by
  induction l with
  | nil => rfl
  | cons s rs ih =>
    simp only [strJoin, string_append_toList, List.map_cons, List.flatten_cons]
    rw [ih]

/-- Group counting splits over concatenation, threading the escape state. -/
theorem countGroupsAux_append (a b : List Char) :
    ∀ e, countGroupsAux (a ++ b) e =
      countGroupsAux a e + countGroupsAux b (escState a e) := by
  induction a with
  | nil => intro e; simp [countGroupsAux, escState]
  | cons c rs ih =>
    intro e
    cases e with
    | true => simpa [countGroupsAux, escState] using ih false
    | false =>
      by_cases hbs : c = '\\'
      · simpa [countGroupsAux, escState, hbs] using ih true
      · by_cases hp : c = '('
        · simp [countGroupsAux, escState, hbs, hp, ih false]
          omega
        · simpa [countGroupsAux, escState, hbs, hp] using ih false

/-- The escape state after a concatenation. -/
theorem escState_append (a b : List Char) :
    ∀ e, escState (a ++ b) e = escState b (escState a e) := by
  induction a with
  | nil => intro e; simp [escState]
  | cons c rs ih =>
    intro e
    cases e with
    | true => simpa [escState] using ih false
    | false =>
      by_cases hbs : c = '\\'
      · simpa [escState, hbs] using ih true
      · simpa [escState, hbs] using ih false

/-- A text without `(` contributes no capture groups in any state. -/
theorem countGroupsAux_of_no_paren (a : List Char) (h : ¬ '(' ∈ a) :
    ∀ e, countGroupsAux a e = 0 := by
  induction a with
  | nil => intro e; rfl
  | cons c rs ih =>
    intro e
    have hc : c ≠ '(' := fun hc => h (hc ▸ List.mem_cons_self c rs)
    have hrs : ¬ '(' ∈ rs := fun hm => h (List.mem_cons_of_mem c hm)
    cases e with
    | true => simpa [countGroupsAux] using ih hrs false
    | false =>
      by_cases hbs : c = '\\'
      · simpa [countGroupsAux, hbs] using ih hrs true
      · simpa [countGroupsAux, hbs, hc] using ih hrs false

/-- A text without backslashes ends in the clear escape state. -/
theorem escState_of_no_backslash (a : List Char) (h : ¬ '\\' ∈ a) :
    escState a false = false := by
  induction a with
  | nil => rfl
  | cons c rs ih =>
    have hc : c ≠ '\\' := fun hc => h (hc ▸ List.mem_cons_self c rs)
    have hrs : ¬ '\\' ∈ rs := fun hm => h (List.mem_cons_of_mem c hm)
    simpa [escState, hc] using ih hrs

/-- `re.escape` output contributes no capture groups. -/
theorem countGroupsAux_reEscape (s : List Char) :
    countGroupsAux (reEscape s) false = 0 := by
  induction s with
  | nil => rfl
  | cons c rs ih =>
    have hflat : reEscape (c :: rs) = reEscapeChar c ++ reEscape rs := by
      simp [reEscape]
    rw [hflat, countGroupsAux_append]
    by_cases hc : c ∈ reSpecialChars
    · simp [reEscapeChar, hc, countGroupsAux, escState, ih]
    · have hbs : c ≠ '\\' := by
        intro h; rw [h] at hc; exact hc (by decide)
      have hp : c ≠ '(' := by
        intro h; rw [h] at hc; exact hc (by decide)
      simp [reEscapeChar, hc, countGroupsAux, escState, hbs, hp, ih]

/-- `re.escape` output ends in the clear escape state. -/
theorem escState_reEscape (s : List Char) :
    escState (reEscape s) false = false := by
  induction s with
  | nil => rfl
  | cons c rs ih =>
    have hflat : reEscape (c :: rs) = reEscapeChar c ++ reEscape rs := by
      simp [reEscape]
    rw [hflat, escState_append]
    by_cases hc : c ∈ reSpecialChars
    · simpa [reEscapeChar, hc, escState] using ih
    · have hbs : c ≠ '\\' := by
        intro h; rw [h] at hc; exact hc (by decide)
      simpa [reEscapeChar, hc, escState, hbs] using ih

/-- `unescape` inverts `re.escape`: the compiled regex of a literal matches
exactly that literal. -/
theorem unescape_reEscape (s : List Char) :
    unescape (reEscape s) = some s := by
  induction s with
  | nil => rfl
  | cons c rs ih =>
    have hflat : reEscape (c :: rs) = reEscapeChar c ++ reEscape rs := by
      simp [reEscape]
    rw [hflat]
    by_cases hc : c ∈ reSpecialChars
    · simp [reEscapeChar, hc, unescape, ih]
    · have hbs : c ≠ '\\' := by
        intro h; rw [h] at hc; exact hc (by decide)
      have hmeta : c ∉ ['.', '^', '$', '*', '+', '?', '\x7b', '\x7d', '[',
          ']', '(', ')', '|', '\\'] := by
        intro hm
        apply hc
        fin_cases hm <;> decide
      simp only [reEscapeChar, if_neg hc, List.singleton_append]
      rw [unescape.eq_def]
      simp [hbs, hmeta, ih]

/-- Every error raised inside the substitution-unit scan names the original
pattern string. -/
theorem subScan_error_s (pattern : String) (start : Nat) :
    ∀ rest idx nopen comma e,
      subScan pattern start rest idx nopen comma = .error e → e.s = pattern := by
  intro rest idx nopen comma
  induction rest, idx, nopen, comma using subScan.induct pattern start with
  | case1 rest idx comma => intro e h; simp [subScan] at h
  | case2 idx m x =>
    intro e h
    simp only [subScan, Except.error.injEq] at h
    rw [← h]
  | case3 rs idx m comma ih => intro e h; simp only [subScan] at h; exact ih e h
  | case4 rs idx m comma ih => intro e h; simp only [subScan] at h; exact ih e h
  | case5 rs idx m ih => intro e h; simp only [subScan] at h; exact ih e h
  | case6 rs idx m k =>
    intro e h
    simp only [subScan, Except.error.injEq] at h
    rw [← h]
  | case7 rs2 idx m comma ih => intro e h; simp only [subScan] at h; exact ih e h
  | case8 c rs idx m comma h1 h2 h3 h4 h5 ih =>
    intro e h
    rw [subScan.eq_8 pattern start idx comma c rs m h1 h2 h5 h3 h4] at h
    exact ih e h

/-- Every error raised by the tokenizer loop names the original pattern
string. -/
theorem tokenizeFrom_error_s (pattern : String) (chars : List Char) :
    ∀ fuel rest idx g e,
      tokenizeFrom pattern chars fuel rest idx g = .error e → e.s = pattern := by
  intro fuel
  induction fuel with
  | zero =>
    intro rest idx g e h
    simp only [tokenizeFrom, Except.error.injEq] at h
    rw [← h]
  | succ fuel ih =>
    intro rest idx g e h
    cases rest with
    | nil => simp [tokenizeFrom] at h
    | cons c rs =>
      simp only [tokenizeFrom] at h
      by_cases hb : c = '\x7b'
      · rw [if_pos hb] at h
        cases hs : subScan pattern idx rs (idx + 1) 1 none with
        | error e2 =>
          rw [hs] at h
          dsimp only at h
          injection h with h
          exact h ▸ subScan_error_s pattern idx rs (idx + 1) 1 none e2 hs
        | ok val =>
          obtain ⟨endI, cm, rest'⟩ := val
          rw [hs] at h
          cases cm with
          | none =>
            dsimp only at h
            injection h with h
            rw [← h]
          | some cmv =>
            dsimp only at h
            cases hr : tokenizeFrom pattern chars fuel rest' endI g with
            | error e2 =>
              rw [hr] at h
              dsimp only at h
              injection h with h
              exact h ▸ ih rest' endI g e2 hr
            | ok toks' =>
              rw [hr] at h
              exact Except.noConfusion h
      · rw [if_neg hb] at h
        by_cases hp : c = '%'
        · rw [if_pos hp] at h
          cases hr : tokenizeFrom pattern chars fuel rs (idx + 1) (g + 1) with
          | error e2 =>
            rw [hr] at h
            dsimp only at h
            injection h with h
            exact h ▸ ih rs (idx + 1) (g + 1) e2 hr
          | ok toks' =>
            rw [hr] at h
            exact Except.noConfusion h
        · rw [if_neg hp] at h
          by_cases hro : regexOnlyChars.contains c = true
          · rw [if_pos hro] at h
            cases hr : tokenizeFrom pattern chars fuel rs (idx + 1) g with
            | error e2 =>
              rw [hr] at h
              dsimp only at h
              injection h with h
              exact h ▸ ih rs (idx + 1) g e2 hr
            | ok toks' =>
              rw [hr] at h
              exact Except.noConfusion h
          · rw [if_neg hro] at h
            cases hr : tokenizeFrom pattern chars fuel
                (rs.dropWhile (fun d => !(specialChars.contains d)))
                (idx + (c :: rs.takeWhile (fun d => !(specialChars.contains d))).length) g with
            | error e2 =>
              rw [hr] at h
              dsimp only at h
              injection h with h
              exact h ▸ ih _ _ g e2 hr
            | ok toks' =>
              rw [hr] at h
              exact Except.noConfusion h



/-- The concatenated regex contributions of a token list, as characters. -/
def reCharsOf (toks : List Token) : List Char :=
  (toks.map (fun t => t.re_value.toList)).flatten

/-- The concatenated substitution contributions of a token list. -/
def subCharsOf (toks : List Token) : List Char :=
  (toks.map (fun t => t.sub_value.toList)).flatten

/-- Structure of a successful tokenization starting at group number `g`:
the substitution text contains the backreferences for the emitted wildcards,
numbered consecutively from `g` in order; and, provided no substitution-unit
input text carries a parenthesis or backslash (such text enters the regex
unescaped), the regex text has exactly one capture group per wildcard token
and ends in the clear escape state. -/
theorem tokenizeFrom_ok_analysis (pattern : String) (chars : List Char) :
    ∀ fuel rest idx g toks,
      tokenizeFrom pattern chars fuel rest idx g = .ok toks →
      ContainsRefs g (numGroups toks) (subCharsOf toks)
      ∧ ((∀ t ∈ toks, t.type = TokenType.SUB →
            ¬ '(' ∈ t.re_value.toList ∧ ¬ '\\' ∈ t.re_value.toList) →
          countGroupsAux (reCharsOf toks) false = numGroups toks
          ∧ escState (reCharsOf toks) false = false) := by
  intro fuel
  induction fuel with
  | zero =>
    intro rest idx g toks h
    exact absurd h (by simp [tokenizeFrom])
  | succ fuel ih =>
    intro rest idx g toks h
    cases rest with
    | nil =>
      simp only [tokenizeFrom, Except.ok.injEq] at h
      subst h
      exact ⟨.zero .., fun _ => ⟨rfl, rfl⟩⟩
    | cons c rs =>
      simp only [tokenizeFrom] at h
      by_cases hb : c = '\x7b'
      · rw [if_pos hb] at h
        cases hs : subScan pattern idx rs (idx + 1) 1 none with
        | error e2 => rw [hs] at h; exact Except.noConfusion h
        | ok val =>
          obtain ⟨endI, cm, rest'⟩ := val
          rw [hs] at h
          cases cm with
          | none => exact Except.noConfusion h
          | some cmv =>
            dsimp only at h
            cases hr : tokenizeFrom pattern chars fuel rest' endI g with
            | error e2 => rw [hr] at h; exact Except.noConfusion h
            | ok toks' =>
              rw [hr] at h
              dsimp only at h
              injection h with h
              subst h
              obtain ⟨ih1, ih2⟩ := ih rest' endI g toks' hr
              constructor
              · have hnum : numGroups (⟨TokenType.SUB,
                    String.mk (pySlice chars (idx + 1) cmv),
                    String.mk (pySlice chars (cmv + 1) (endI - 1)),
                    String.mk (pySlice chars (cmv + 1) (endI - 1))⟩ :: toks') =
                    numGroups toks' := by
                  simp [numGroups, List.countP_cons]
                rw [hnum]
                exact ContainsRefs.prepend _ ih1
              · intro hsub
                have hthis := hsub _ (List.mem_cons_self _ _) rfl
                have hrest := fun t ht hty =>
                  hsub t (List.mem_cons_of_mem _ ht) hty
                obtain ⟨hcount', hesc'⟩ := ih2 hrest
                have h0 : countGroupsAux (pySlice chars (idx + 1) cmv) false = 0 :=
                  countGroupsAux_of_no_paren _ hthis.1 false
                have hE : escState (pySlice chars (idx + 1) cmv) false = false :=
                  escState_of_no_backslash _ hthis.2
                constructor
                · simp only [reCharsOf, List.map_cons, List.flatten_cons,
                    countGroupsAux_append, numGroups, List.countP_cons]
                  simp only [reCharsOf, String.toList] at hcount'
                  simp [numGroups, String.toList, h0, hE, hcount']
                · simp only [reCharsOf, List.map_cons, List.flatten_cons,
                    escState_append]
                  simp only [reCharsOf, String.toList] at hesc'
                  simp [String.toList, hE, hesc']
      · rw [if_neg hb] at h
        by_cases hp : c = '%'
        · rw [if_pos hp] at h
          cases hr : tokenizeFrom pattern chars fuel rs (idx + 1) (g + 1) with
          | error e2 => rw [hr] at h; exact Except.noConfusion h
          | ok toks' =>
            rw [hr] at h
            dsimp only at h
            injection h with h
            subst h
            obtain ⟨ih1, ih2⟩ := ih rs (idx + 1) (g + 1) toks' hr
            constructor
            · have hnum : numGroups ((⟨TokenType.GROUP, "(.*)",
                  "\\" ++ toString g, "*"⟩ : Token) :: toks') =
                  numGroups toks' + 1 := by
                simp [numGroups, List.countP_cons]
              rw [hnum]
              have hstep := ContainsRefs.step g (numGroups toks') []
                (subCharsOf toks') ih1
              simpa [subCharsOf, bref, string_append_toList, String.toList]
                using hstep
            · intro hsub
              have hrest := fun t ht hty => hsub t (List.mem_cons_of_mem _ ht) hty
              obtain ⟨hcount', hesc'⟩ := ih2 hrest
              have hg1 : countGroupsAux ['(', '.', '*', ')'] false = 1 := by decide
              have hg2 : escState ['(', '.', '*', ')'] false = false := by decide
              simp only [reCharsOf, String.toList] at hcount' hesc'
              constructor
              · simp only [reCharsOf, List.map_cons, List.flatten_cons,
                  countGroupsAux_append, numGroups, List.countP_cons, String.toList]
                simp only [numGroups] at hcount'
                rw [hg2, hg1, hcount']
                simp
                omega
              · simp only [reCharsOf, List.map_cons, List.flatten_cons,
                  escState_append, String.toList]
                rw [hg2, hesc']
        · rw [if_neg hp] at h
          by_cases hro : regexOnlyChars.contains c = true
          · rw [if_pos hro] at h
            cases hr : tokenizeFrom pattern chars fuel rs (idx + 1) g with
            | error e2 => rw [hr] at h; exact Except.noConfusion h
            | ok toks' =>
              rw [hr] at h
              dsimp only at h
              injection h with h
              subst h
              obtain ⟨ih1, ih2⟩ := ih rs (idx + 1) g toks' hr
              have hcval : c = '$' ∨ c = '^' := by
                simpa [regexOnlyChars] using hro
              constructor
              · have hnum : numGroups ((⟨TokenType.RE_ONLY, String.mk [c],
                    "", ""⟩ : Token) :: toks') = numGroups toks' := by
                  simp [numGroups, List.countP_cons]
                rw [hnum]
                have := ContainsRefs.prepend ([] : List Char) ih1
                simpa [subCharsOf, String.toList] using this
              · intro hsub
                have hrest := fun t ht hty => hsub t (List.mem_cons_of_mem _ ht) hty
                obtain ⟨hcount', hesc'⟩ := ih2 hrest
                constructor
                · simp only [reCharsOf, List.map_cons, List.flatten_cons,
                    countGroupsAux_append, numGroups, List.countP_cons]
                  simp only [reCharsOf, String.toList] at hcount'
                  rcases hcval with hcv | hcv <;>
                    simp [numGroups, String.toList, hcount', hcv,
                      countGroupsAux, escState]
                · simp only [reCharsOf, List.map_cons, List.flatten_cons,
                    escState_append]
                  simp only [reCharsOf, String.toList] at hesc'
                  rcases hcval with hcv | hcv <;>
                    simp [String.toList, hesc', hcv, escState]
          · rw [if_neg hro] at h
            cases hr : tokenizeFrom pattern chars fuel
                (rs.dropWhile (fun d => !(specialChars.contains d)))
                (idx + (c :: rs.takeWhile (fun d => !(specialChars.contains d))).length) g with
            | error e2 => rw [hr] at h; exact Except.noConfusion h
            | ok toks' =>
              rw [hr] at h
              dsimp only at h
              injection h with h
              subst h
              obtain ⟨ih1, ih2⟩ := ih _ _ g toks' hr
              constructor
              · have hnum : numGroups ((⟨TokenType.STRING,
                    String.mk (reEscape (c :: rs.takeWhile (fun d => !(specialChars.contains d)))),
                    String.mk (c :: rs.takeWhile (fun d => !(specialChars.contains d))),
                    String.mk (c :: rs.takeWhile (fun d => !(specialChars.contains d)))⟩ : Token) :: toks') =
                    numGroups toks' := by
                  simp [numGroups, List.countP_cons]
                rw [hnum]
                have := ContainsRefs.prepend
                  (c :: rs.takeWhile (fun d => !(specialChars.contains d))) ih1
                simpa [subCharsOf, String.toList] using this
              · intro hsub
                have hrest := fun t ht hty => hsub t (List.mem_cons_of_mem _ ht) hty
                obtain ⟨hcount', hesc'⟩ := ih2 hrest
                constructor
                · simp only [reCharsOf, List.map_cons, List.flatten_cons,
                    countGroupsAux_append, numGroups, List.countP_cons]
                  simp only [reCharsOf, String.toList] at hcount'
                  simp [numGroups, String.toList, hcount',
                    countGroupsAux_reEscape, escState_reEscape]
                · simp only [reCharsOf, List.map_cons, List.flatten_cons,
                    escState_append]
                  simp only [reCharsOf, String.toList] at hesc'
                  simp [String.toList, hesc', escState_reEscape]

/-- A predicate holding on every element makes `takeWhile` the identity and
`dropWhile` empty. -/
theorem takeWhile_eq_self_of_all {α : Type} (pred : α → Bool) :
    ∀ l : List α, (∀ d ∈ l, pred d = true) →
      l.takeWhile pred = l ∧ l.dropWhile pred = [] := by
  intro l
  induction l with
  | nil => intro _; exact ⟨rfl, rfl⟩
  | cons d ds ih =>
    intro h
    have hd : pred d = true := h d (List.mem_cons_self d ds)
    have hds := ih (fun x hx => h x (List.mem_cons_of_mem d hx))
    simp [List.takeWhile_cons, List.dropWhile_cons, hd, hds.1, hds.2]

/-- Joining a single string is that string. -/
theorem strJoin_single (s : String) : strJoin [s] = s := by
  cases s with
  | mk d =>
    show String.mk (d ++ []) = String.mk d
    simp

/-- Rebuilding a string from its characters is the identity. -/
theorem mk_toList (p : String) : String.mk p.toList = p := rfl

/-- C9 as amended: a pattern containing none of the special characters
`%`, `\x7b`, `^`, `$` compiles successfully; the substitution and glob
strings are the pattern text unchanged, and the regex is the `re.escape` of
the pattern text, an escape-only regex whose denotation (`unescape`) is
exactly the pattern's literal character sequence — it matches only the
literal text. -/
theorem literal_pattern_parse (p : String)
    (h : ∀ c ∈ p.toList, ¬ c ∈ specialChars) :
    parse p = .ok (String.mk (reEscape p.toList), p, p)
    ∧ unescape (reEscape p.toList) = some p.toList := by
  refine ⟨?_, unescape_reEscape p.toList⟩
  cases hl : p.toList with
  | nil =>
    have hp : p = "" := by
      cases p with
      | mk d =>
        simp only [String.toList] at hl
        rw [hl]
    subst hp
    rfl
  | cons c rs =>
    rw [hl] at h
    have hcs : ¬ c ∈ specialChars := h c (List.mem_cons_self c rs)
    have hb : ¬ c = '\x7b' := fun he => hcs (he ▸ (by decide : '\x7b' ∈ specialChars))
    have hp : ¬ c = '%' := fun he => hcs (he ▸ (by decide : '%' ∈ specialChars))
    have hro : ¬ regexOnlyChars.contains c = true := by
      intro hcon
      have hmem : c ∈ regexOnlyChars := List.mem_of_elem_eq_true hcon
      apply hcs
      have : c = '$' ∨ c = '^' := by simpa [regexOnlyChars] using hmem
      rcases this with rfl | rfl <;> decide
    have hall : ∀ d ∈ rs, (!(specialChars.contains d)) = true := by
      intro d hd
      have : ¬ d ∈ specialChars := h d (List.mem_cons_of_mem c hd)
      simpa using this
    have htw := takeWhile_eq_self_of_all (fun d => !(specialChars.contains d)) rs hall
    have hpmk : p = String.mk (c :: rs) := by
      cases p with
      | mk d =>
        simp only [String.toList] at hl
        rw [hl]
    rw [parse, tokenize]
    rw [show p.toList.length + 1 = p.toList.length + 1 from rfl]
    rw [hl]
    simp only [List.length_cons, tokenizeFrom, if_neg hb, if_neg hp, if_neg hro,
      htw.1, htw.2]
    simp only [List.map_cons, List.map_nil, strJoin_single]
    rw [hpmk]



/-- C4 as amended: for every pattern that tokenizes successfully with `N`
wildcard tokens, provided no substitution-unit's input-side text contains a
parenthesis or a backslash (that text is injected into the regex unescaped),
the compiled regex contains exactly `N` capture groups, and the substitution
string contains the backreferences `\1 ... \N`, in this left-to-right
order with no skipped or reordered group numbers. -/
theorem pattern_groups_and_backrefs (p : String) (toks : List Token)
    (h : tokenize p = .ok toks)
    (hsub : ∀ t ∈ toks, t.type = TokenType.SUB →
      ¬ '(' ∈ t.re_value.toList ∧ ¬ '\\' ∈ t.re_value.toList) :
    countGroups (strJoin (toks.map Token.re_value)).toList = numGroups toks
    ∧ ContainsRefs 1 (numGroups toks) (strJoin (toks.map Token.sub_value)).toList := by
  obtain ⟨h1, h2⟩ := tokenizeFrom_ok_analysis p p.toList
    (p.toList.length + 1) p.toList 0 1 toks h
  obtain ⟨hc, _⟩ := h2 hsub
  constructor
  · have he : (strJoin (toks.map Token.re_value)).toList = reCharsOf toks := by
      rw [strJoin_toList, List.map_map]
      rfl
    rw [countGroups, he]
    exact hc
  · have he : (strJoin (toks.map Token.sub_value)).toList = subCharsOf toks := by
      rw [strJoin_toList, List.map_map]
      rfl
    rw [he]
    exact h1

/-- Witness for the amended C4 at the two-wildcard pattern `a%b%c`. -/
theorem pattern_groups_witness :
    tokenize "a%b%c" = .ok [⟨.STRING, "a", "a", "a"⟩, ⟨.GROUP, "(.*)", "\\1", "*"⟩,
      ⟨.STRING, "b", "b", "b"⟩, ⟨.GROUP, "(.*)", "\\2", "*"⟩,
      ⟨.STRING, "c", "c", "c"⟩]
    ∧ (countGroups (strJoin ([(⟨.STRING, "a", "a", "a"⟩ : Token),
          ⟨.GROUP, "(.*)", "\\1", "*"⟩, ⟨.STRING, "b", "b", "b"⟩,
          ⟨.GROUP, "(.*)", "\\2", "*"⟩,
          ⟨.STRING, "c", "c", "c"⟩].map Token.re_value)).toList =
        numGroups [⟨.STRING, "a", "a", "a"⟩, ⟨.GROUP, "(.*)", "\\1", "*"⟩,
          ⟨.STRING, "b", "b", "b"⟩, ⟨.GROUP, "(.*)", "\\2", "*"⟩,
          ⟨.STRING, "c", "c", "c"⟩]
      ∧ ContainsRefs 1 (numGroups [⟨.STRING, "a", "a", "a"⟩,
          ⟨.GROUP, "(.*)", "\\1", "*"⟩, ⟨.STRING, "b", "b", "b"⟩,
          ⟨.GROUP, "(.*)", "\\2", "*"⟩, ⟨.STRING, "c", "c", "c"⟩])
        (strJoin ([(⟨.STRING, "a", "a", "a"⟩ : Token),
          ⟨.GROUP, "(.*)", "\\1", "*"⟩, ⟨.STRING, "b", "b", "b"⟩,
          ⟨.GROUP, "(.*)", "\\2", "*"⟩,
          ⟨.STRING, "c", "c", "c"⟩].map Token.sub_value)).toList) :=
  ⟨rfl, pattern_groups_and_backrefs "a%b%c" _ rfl (by decide)⟩

/-- Counterexample to C4: the pattern `\x7b(a),b\x7d%` has one wildcard
occurrence, but its substitution unit's input text `(a)` reaches the regex
unescaped, so the compiled regex `(a)(.*)` has two capture groups, not one. -/
theorem pattern_groups_counterexample :
    tokenize "\x7b(a),b\x7d%" =
      .ok [⟨.SUB, "(a)", "b", "b"⟩, ⟨.GROUP, "(.*)", "\\1", "*"⟩]
    ∧ numGroups [(⟨.SUB, "(a)", "b", "b"⟩ : Token),
        ⟨.GROUP, "(.*)", "\\1", "*"⟩] = 1
    ∧ strJoin ([(⟨.SUB, "(a)", "b", "b"⟩ : Token),
        ⟨.GROUP, "(.*)", "\\1", "*"⟩].map Token.re_value) = "(a)(.*)"
    ∧ countGroups ("(a)(.*)" : String).toList = 2 :=
  ⟨rfl, rfl, rfl, rfl⟩

/-- C8: compilation failure produces no partial result (the `Except` carries
only the error); every raised error names the original pattern string along
with a failing index and a cause message; and compiling `a/\x7bfoo,bar`
raises the unterminated-brace error whose message names the opening brace's
index 2. -/
theorem parse_error_reporting :
    (∀ p e, parse p = .error e → e.s = p)
    ∧ parse "a/\x7bfoo,bar" = .error ⟨"a/\x7bfoo,bar", 10,
        "Pattern ends with unterminated \x7b from index 2"⟩ := by
  constructor
  · intro p e h
    rw [parse] at h
    cases ht : tokenize p with
    | error e2 =>
      rw [ht] at h
      dsimp only at h
      injection h with h
      exact h ▸ tokenizeFrom_error_s p p.toList (p.toList.length + 1)
        p.toList 0 1 e2 ht
    | ok toks =>
      rw [ht] at h
      exact Except.noConfusion h
  · rfl

/-- Witness for C8 at the unterminated pattern `a/\x7bfoo,bar`. -/
theorem parse_error_reporting_witness :
    parse "a/\x7bfoo,bar" = .error ⟨"a/\x7bfoo,bar", 10,
      "Pattern ends with unterminated \x7b from index 2"⟩
    ∧ ParsingError.s ⟨"a/\x7bfoo,bar", 10,
        "Pattern ends with unterminated \x7b from index 2"⟩ = "a/\x7bfoo,bar" :=
  ⟨rfl, parse_error_reporting.1 "a/\x7bfoo,bar" _ rfl⟩

/-- Counterexample to C9: `a^b` contains no `%` and no braces, yet its
anchor is dropped from the substitution, so the substitution `ab` is not the
pattern's literal text. -/
theorem literal_pattern_counterexample :
    parse "a^b" = .ok ("a^b", "ab", "ab") ∧ ("ab" : String) ≠ "a^b" :=
  ⟨rfl, by decide⟩

/-- Witness for the amended C9 at the literal pattern `ab.c`. -/
theorem literal_pattern_parse_witness :
    (∀ c ∈ ("ab.c" : String).toList, ¬ c ∈ specialChars)
    ∧ parse "ab.c" = .ok (String.mk (reEscape ("ab.c" : String).toList),
        "ab.c", "ab.c")
    ∧ unescape (reEscape ("ab.c" : String).toList) = some ("ab.c" : String).toList :=
  ⟨by decide, (literal_pattern_parse "ab.c" (by decide)).1,
    (literal_pattern_parse "ab.c" (by decide)).2⟩



/-- Claim-side counter for C5, following the spec's words: the number of
unescaped commas (`\,` counting as literal text) encountered while scanning
a substitution unit from brace depth `nopen`, at any nesting depth, paired
with whether a matching closing brace was found. -/
def commaScan : List Char → Nat → Nat × Bool
  | _, 0 => (0, true)
  | [], _ + 1 => (0, false)
  | '\x7b' :: rs, m + 1 => commaScan rs (m + 2)
  | '\x7d' :: rs, m + 1 => commaScan rs m
  | ',' :: rs, m + 1 =>
    ((commaScan rs (m + 1)).1 + 1, (commaScan rs (m + 1)).2)
  | '\\' :: ',' :: rs2, m + 1 => commaScan rs2 (m + 1)
  | _ :: rs, m + 1 => commaScan rs (m + 1)

/-- Number of commas already recorded in the scanner's comma state. -/
def commaCount0 : Option Nat → Nat
  | none => 0
  | some _ => 1

/-- Correspondence between the substitution-unit scan and the unescaped
comma count: two or more commas (counting a previously recorded one) give
the second-comma error; at most one comma with a matching closing brace
gives success, recording a comma position exactly when one comma was seen;
at most one comma with no closing brace gives the unterminated error. -/
theorem subScan_commaScan (p : String) (start : Nat) :
    ∀ rest idx nopen comma,
      (2 ≤ (commaScan rest nopen).1 + commaCount0 comma →
        ∃ i, subScan p start rest idx nopen comma =
          .error ⟨p, i,
            "Found a second comma inside a substitution. Escape with a backslash if needed."⟩)
      ∧ ((commaScan rest nopen).1 + commaCount0 comma ≤ 1 →
          (commaScan rest nopen).2 = true →
          ∃ endI cm rest', subScan p start rest idx nopen comma =
            .ok (endI, cm, rest')
            ∧ (cm = none ↔ (commaScan rest nopen).1 + commaCount0 comma = 0))
      ∧ ((commaScan rest nopen).1 + commaCount0 comma ≤ 1 →
          (commaScan rest nopen).2 = false →
          ∃ i, subScan p start rest idx nopen comma =
            .error ⟨p, i,
              "Pattern ends with unterminated \x7b from index " ++ toString start⟩) := by
  intro rest idx nopen comma
  induction rest, idx, nopen, comma using subScan.induct p start with
  | case1 rest idx comma =>
    refine ⟨?_, ?_, ?_⟩
    · intro h2
      exfalso
      cases comma <;> simp [commaScan, commaCount0] at h2
    · intro _ _
      refine ⟨idx, comma, rest, by simp [subScan], ?_⟩
      cases comma <;> simp [commaScan, commaCount0]
    · intro _ hcl
      simp [commaScan] at hcl
  | case2 idx m x =>
    refine ⟨?_, ?_, ?_⟩
    · intro h2
      exfalso
      cases x <;> simp [commaScan, commaCount0] at h2
    · intro _ hcl
      simp [commaScan] at hcl
    · intro _ _
      exact ⟨idx, by simp [subScan]⟩
  | case3 rs idx m comma ih =>
    simpa only [commaScan, subScan] using ih
  | case4 rs idx m comma ih =>
    simpa only [commaScan, subScan] using ih
  | case5 rs idx m ih =>
    obtain ⟨ih1, ih2, ih3⟩ := ih
    refine ⟨?_, ?_, ?_⟩
    · intro h2
      simp only [commaScan, commaCount0] at h2 ⊢
      simp only [subScan]
      exact ih1 (by simp [commaCount0]; omega)
    · intro hle hcl
      simp only [commaScan, commaCount0] at hle hcl
      simp only [subScan]
      obtain ⟨endI, cm, rest', heq, hiff⟩ := ih2 (by simp [commaCount0]; omega)
        (by simpa [commaScan] using hcl)
      refine ⟨endI, cm, rest', heq, ?_⟩
      simp only [commaScan, commaCount0]
      constructor
      · intro hcm
        exact absurd (hiff.mp hcm) (by simp [commaCount0])
      · intro hfalse
        omega
    · intro hle hcl
      simp only [commaScan, commaCount0] at hle hcl
      simp only [subScan]
      exact ih3 (by simp [commaCount0]; omega) (by simpa [commaScan] using hcl)
  | case6 rs idx m k =>
    refine ⟨?_, ?_, ?_⟩
    · intro _
      exact ⟨idx + 1, by simp [subScan]⟩
    · intro hle _
      exfalso
      simp [commaScan, commaCount0] at hle
    · intro hle _
      exfalso
      simp [commaScan, commaCount0] at hle
  | case7 rs2 idx m comma ih =>
    simpa only [commaScan, subScan] using ih
  | case8 c rs idx m comma h1 h2 h3 h4 h5 ih =>
    have hcomma : ¬ c = ',' := by
      intro hc
      cases hk : comma with
      | none => exact h3 hc hk
      | some v => exact h4 v hc hk
    have hsubeq : subScan p start (c :: rs) idx (m + 1) comma =
        subScan p start rs (idx + 1) (m + 1) comma :=
      subScan.eq_8 p start idx comma c rs m h1 h2 h5 h3 h4
    have hcseq : commaScan (c :: rs) (m + 1) = commaScan rs (m + 1) := by
      rcases rs with _ | ⟨d, rs'⟩
      · rw [commaScan.eq_7] <;> simp_all
      · rw [commaScan.eq_7] <;> simp_all
    rw [hsubeq, hcseq]
    exact ih



/-- Claim-side counter for the C5 counterexample: the number of unescaped
commas at the OUTERMOST nesting depth only (depth 1) of the scanned unit,
as the frozen claim reads. -/
def outerCommaCount : List Char → Nat → Nat
  | _, 0 => 0
  | [], _ + 1 => 0
  | '\x7b' :: rs, m + 1 => outerCommaCount rs (m + 2)
  | '\x7d' :: rs, m + 1 => outerCommaCount rs m
  | ',' :: rs, 1 => outerCommaCount rs 1 + 1
  | ',' :: rs, m + 2 => outerCommaCount rs (m + 2)
  | '\\' :: ',' :: rs2, m + 1 => outerCommaCount rs2 (m + 1)
  | _ :: rs, m + 1 => outerCommaCount rs (m + 1)

/-- Counterexample to C5: the unit `\x7ba\x7bb,c\x7dd,e\x7d` has exactly
one unescaped comma at its outermost nesting depth, yet compiling it raises
the second-comma error — the scanner counts commas at every depth. -/
theorem sub_unit_comma_rule_counterexample :
    outerCommaCount "a\x7bb,c\x7dd,e\x7d".toList 1 = 1
    ∧ tokenize "\x7ba\x7bb,c\x7dd,e\x7d" =
      .error ⟨"\x7ba\x7bb,c\x7dd,e\x7d", 9,
        "Found a second comma inside a substitution. Escape with a backslash if needed."⟩ :=
  ⟨rfl, rfl⟩

/-- C5 as amended: compiling a substitution unit raises a compile error
exactly when the number of unescaped commas at ANY nesting depth inside the
braces is zero (no-comma error, shown at the concrete `\x7bab\x7d`) or more
than one (second-comma error); with exactly one unescaped comma the scan
succeeds and records it.  An escaped comma `\,` counts as literal text and
is retained in the extracted input-side text: `\x7ba,b,c\x7d` raises the
second-comma error, while `\x7ba\,b,c\x7d` compiles with input-side text
`a\,b` (matching `a,b`, the backslash being a regex escape) and output-side
text `c`. -/
theorem sub_unit_comma_rule (p : String) (start : Nat) (rest : List Char)
    (idx : Nat) :
    (2 ≤ (commaScan rest 1).1 →
      ∃ i, subScan p start rest idx 1 none =
        .error ⟨p, i,
          "Found a second comma inside a substitution. Escape with a backslash if needed."⟩)
    ∧ ((commaScan rest 1).1 = 1 → (commaScan rest 1).2 = true →
        ∃ endI cm rest', subScan p start rest idx 1 none =
          .ok (endI, some cm, rest'))
    ∧ ((commaScan rest 1).1 = 0 → (commaScan rest 1).2 = true →
        ∃ endI rest', subScan p start rest idx 1 none = .ok (endI, none, rest'))
    ∧ ((commaScan rest 1).1 ≤ 1 → (commaScan rest 1).2 = false →
        ∃ i, subScan p start rest idx 1 none =
          .error ⟨p, i,
            "Pattern ends with unterminated \x7b from index " ++ toString start⟩)
    ∧ tokenize "\x7bab\x7d" = .error ⟨"\x7bab\x7d", 4,
        "No comma found inside substitution pattern brackets"⟩
    ∧ tokenize "\x7ba,b,c\x7d" = .error ⟨"\x7ba,b,c\x7d", 5,
        "Found a second comma inside a substitution. Escape with a backslash if needed."⟩
    ∧ tokenize "\x7ba\\,b,c\x7d" = .ok [⟨.SUB, "a\\,b", "c", "c"⟩] := by
  obtain ⟨h1, h2, h3⟩ := subScan_commaScan p start rest idx 1 none
  refine ⟨?_, ?_, ?_, ?_, rfl, rfl, rfl⟩
  · intro hn
    exact h1 (by simpa [commaCount0] using hn)
  · intro hn hcl
    obtain ⟨endI, cm, rest', heq, hiff⟩ := h2 (by simp [commaCount0, hn]) hcl
    cases cm with
    | none =>
      have := hiff.mp rfl
      rw [hn] at this
      simp [commaCount0] at this
    | some k => exact ⟨endI, k, rest', heq⟩
  · intro hn hcl
    obtain ⟨endI, cm, rest', heq, hiff⟩ := h2 (by simp [commaCount0, hn]) hcl
    have hcm : cm = none := hiff.mpr (by simp [commaCount0, hn])
    subst hcm
    exact ⟨endI, rest', heq⟩
  · intro hn hcl
    exact h3 (by simpa [commaCount0] using hn) hcl

/-- Witness for the amended C5 at the one-comma unit `\x7bx,y\x7d`. -/
theorem sub_unit_comma_rule_witness :
    (commaScan ['x', ',', 'y', '\x7d'] 1).1 = 1
    ∧ (commaScan ['x', ',', 'y', '\x7d'] 1).2 = true
    ∧ (∃ endI cm rest',
        subScan "\x7bx,y\x7d" 0 ['x', ',', 'y', '\x7d'] 1 1 none =
          .ok (endI, some cm, rest')) :=
  ⟨rfl, rfl,
    (sub_unit_comma_rule "\x7bx,y\x7d" 0 ['x', ',', 'y', '\x7d'] 1).2.1 rfl rfl⟩


end Dyfidep
